import Mathlib

/-!
Verification development for the go-minimal-proxy repository.

The repository has two program variants:
* src/main.go          : an HTTP CONNECT tunnel proxy ("Tunnel" namespace here);
* src/src/main.go      : an HTTP forward / SOCKS relay proxy ("Socks" namespace here).

Pure fragments of both programs (policy loading and matching, the CONNECT
handshake decision, the byte-counting stream wrappers, the address helpers
from the Go net package that the code calls) are shallowly embedded below as
executable Lean definitions, translated from the Go source.  Network effects
(dialing, reading sockets) are represented by the data the code computes from
them: handler functions are modelled as decision functions from their textual
inputs to an outcome value recording what the handler writes, dials or logs.
-/

namespace GoProxy

/-- Whitespace test used by strings.TrimSpace (unicode.IsSpace), restricted to
the Latin-1 range actually relevant to host patterns: space, tab, newline,
vertical tab, form feed, carriage return, next line (U+0085) and no-break
space (U+00A0). -/
def goIsSpace (c : Char) : Bool :=
  c == ' ' || c == '\t' || c == '\n' || c.toNat == 11 || c.toNat == 12 ||
  c == '\r' || c.toNat == 133 || c.toNat == 160

/-- Go strings.TrimSpace: remove leading and trailing whitespace characters. -/
def trimSpace (s : String) : String :=
  String.mk (((s.toList.dropWhile goIsSpace).reverse.dropWhile goIsSpace).reverse)

/-- A string with no leading and no trailing whitespace character. -/
def noEdgeSpace (s : String) : Bool :=
  (match s.toList.head? with
   | some c => !goIsSpace c
   | none => true) &&
  (match s.toList.getLast? with
   | some c => !goIsSpace c
   | none => true)

/-- Go strings.HasPrefix with arguments s and pre: pre is a prefix of s. -/
def goHasPre (s pre : String) : Bool :=
  pre.toList.isPrefixOf s.toList

namespace Tunnel

/-- loadBlacklist of src/main.go: every scanned line is trimmed and inserted
into the blacklist map, with no emptiness check, so a blank line inserts the
empty string.  The Go map of keys is modelled as the list of inserted keys
(membership is what isBlocked consumes; duplicate insertions are idempotent
for membership). -/
def loadBlacklist (lines : List String) : List String :=
  lines.map trimSpace

/-- isBlocked of src/main.go: iterates the blacklist and reports true when
strings.HasPrefix(host, blockedURL) holds for some entry. -/
def isBlocked (bl : List String) (host : String) : Bool :=
  bl.any (fun blockedURL => goHasPre host blockedURL)

end Tunnel

namespace Socks

/-- loadBlacklist of src/src/main.go: every scanned line is trimmed and, when
the trimmed line is nonempty, inserted into the blacklist set. -/
def loadBlacklist (lines : List String) : List String :=
  (lines.map trimSpace).filter (fun line => line != "")

/-- isBlacklisted of src/src/main.go: a plain map-membership test of the
address, with no prefix logic. -/
def isBlacklisted (bl : List String) (address : String) : Bool :=
  bl.contains address

end Socks

/-- Apostrophe character, kept out of string literals. -/
def apos : Char := Char.ofNat 39

/-- The literal teapot response both variants write on a policy block:
HTTP/1.1 418 I(apos)m a teapot, followed by two CRLF pairs. -/
def teapotResponse : String :=
  "HTTP/1.1 418 I" ++ String.singleton apos ++ "m a teapot\r\n\r\n"

namespace Tunnel

/-- Outcome of the pure decision part of handleClientConnection in
src/main.go, after the request line has been read: either the handler
returns silently (wrong method), or it writes the teapot response and
returns (policy block), or it proceeds to net.Dial on the given address. -/
inductive ConnectOutcome
  | closedNoResponse
  | blockedResponse (resp : String)
  | dialTarget (hostPort : String)
  deriving DecidableEq, Repr

/-- Decision logic of handleClientConnection (src/main.go lines 102-122):
reject non-CONNECT methods with no response; on a blocked host write the
teapot response and return before any dial; otherwise append the default
port 443 when the host contains no colon, and dial the result. -/
def connectDecision (bl : List String) (method hostPort : String) : ConnectOutcome :=
  if method != "CONNECT" then ConnectOutcome.closedNoResponse
  else if isBlocked bl hostPort then ConnectOutcome.blockedResponse teapotResponse
  else if !(hostPort.toList.contains ':') then ConnectOutcome.dialTarget (hostPort ++ ":443")
  else ConnectOutcome.dialTarget hostPort

end Tunnel

/-- State of a countingConn (src/main.go) and equally of the
countingWriter/countingReader pair (src/src/main.go).  The counter fields
hold Int values; the underlying net.Conn calls report a byte count n with
0 <= n (the io contract), modelled as Nat.  Two update functions act on
this state: applyCall, the ideal unbounded addition, and applyCallW, which
makes the wraparound of the int64 fields under atomic.AddInt64 explicit
(its reachable values stay in the int64 range). -/
structure countingConn where
  bytesWritten : Int
  bytesRead : Int
  deriving DecidableEq, Repr

/-- One call to the wrapped stream: the underlying Conn reported n bytes
transferred together with an optional error. -/
inductive ConnCall
  | write (n : Nat) (err : Option String)
  | read (n : Nat) (err : Option String)
  deriving DecidableEq, Repr

/-- Effect of one wrapper call on the counters, from the Write and Read
methods of countingConn: atomic.AddInt64 of the reported n, performed
unconditionally, whether or not the underlying call also returned an
error; the returned (n, err) pair is passed through unchanged. -/
def applyCall (st : countingConn) : ConnCall → countingConn
  | ConnCall.write n _ => { st with bytesWritten := st.bytesWritten + n }
  | ConnCall.read n _ => { st with bytesRead := st.bytesRead + n }

/-- Counter state after a sequence of wrapper calls. -/
def runCalls (st : countingConn) (calls : List ConnCall) : countingConn :=
  calls.foldl applyCall st

/-- Total bytes the underlying stream reported across the write calls of a
sequence, errored calls included. -/
def writeTotal : List ConnCall → Int
  | [] => 0
  | ConnCall.write n _ :: calls => n + writeTotal calls
  | ConnCall.read _ _ :: calls => writeTotal calls

/-- Total bytes the underlying stream reported across the read calls of a
sequence, errored calls included. -/
def readTotal : List ConnCall → Int
  | [] => 0
  | ConnCall.write _ _ :: calls => readTotal calls
  | ConnCall.read n _ :: calls => n + readTotal calls

/-- Signed 64-bit wraparound: the value an int64 field holds after storing
x, as produced by the two-complement addition of atomic.AddInt64. -/
def wrap64 (x : Int) : Int :=
  (x + 2 ^ 63) % 2 ^ 64 - 2 ^ 63

/-- Effect of one wrapper call on the counters with the int64 wraparound of
atomic.AddInt64 made explicit: the counter field holds wrap64 of the sum of
its old value and the reported n. -/
def applyCallW (st : countingConn) : ConnCall → countingConn
  | ConnCall.write n _ => { st with bytesWritten := wrap64 (st.bytesWritten + n) }
  | ConnCall.read n _ => { st with bytesRead := wrap64 (st.bytesRead + n) }

/-- Counter state after a sequence of wrapper calls, wrapping semantics. -/
def runCallsW (st : countingConn) (calls : List ConnCall) : countingConn :=
  calls.foldl applyCallW st

namespace Socks

/-- Interleaving model of the relay section of handleSOCKS
(src/src/main.go lines 130-137).  The client-to-target direction is the
counted one (go io.Copy(cw, cr): backgrounded, never joined); the
target-to-client direction (io.Copy(conn, targetConn)) runs on the handler
and is awaited.  Pending chunk lists hold the byte counts still to be
copied in each direction; the counters are those of cr and cw. -/
structure relayState where
  pendingClientToTarget : List Nat
  pendingTargetToClient : List Nat
  bytesRead : Nat
  bytesWritten : Nat
  deriving DecidableEq, Repr

/-- One step of the backgrounded goroutine go io.Copy(cw, cr): move one
chunk client-to-target, incrementing the cr read counter and the cw write
counter by its size. -/
def stepBackground (st : relayState) : relayState :=
  match st.pendingClientToTarget with
  | [] => st
  | n :: rest =>
    { st with
      pendingClientToTarget := rest
      bytesRead := st.bytesRead + n
      bytesWritten := st.bytesWritten + n }

/-- One step of the foreground io.Copy(conn, targetConn): move one chunk
target-to-client; this direction goes through no counting wrapper. -/
def stepForeground (st : relayState) : relayState :=
  match st.pendingTargetToClient with
  | [] => st
  | _ :: rest => { st with pendingTargetToClient := rest }

/-- Run an interleaving: true schedules a background step, false a
foreground step. -/
def relayRun (sched : List Bool) (st : relayState) : relayState :=
  sched.foldl (fun s b => if b then stepBackground s else stepForeground s) st

/-- The handler reaches its log.Printf as soon as the foreground copy has
returned; the code contains no join of the backgrounded copy. -/
def logReached (st : relayState) : Bool :=
  st.pendingTargetToClient.isEmpty

/-- The pair the log line reads at that point: cr.bytesRead and
cw.bytesWritten. -/
def loggedBytes (st : relayState) : Nat × Nat :=
  (st.bytesRead, st.bytesWritten)

end Socks

/-- First index of a character in a character list (Go byteIndexString). -/
def firstIdx : List Char → Char → Option Nat
  | [], _ => none
  | a :: rest, c => if a == c then some 0 else (firstIdx rest c).map (fun i => i + 1)

/-- Index of the last occurrence of a character (the helper last of the Go
net package, scanning from the end). -/
def lastIdx (cs : List Char) (c : Char) : Option Nat :=
  (firstIdx cs.reverse c).map (fun i => cs.length - 1 - i)

/-- Go net.SplitHostPort: split host:port or bracketed forms, rejecting a
missing port, a colon inside an unbracketed host, and stray brackets.
Error results are collapsed to none. -/
def splitHostPort (hostport : String) : Option (String × String) :=
  let cs := hostport.toList
  match lastIdx cs ':' with
  | none => none
  | some i =>
    if cs.head? == some '[' then
      match firstIdx cs ']' with
      | none => none
      | some e =>
        if e + 1 == cs.length then none
        else if e + 1 == i then
          if (firstIdx (cs.drop 1) '[').isSome then none
          else if (firstIdx (cs.drop (e + 1)) ']').isSome then none
          else some (String.mk ((cs.drop 1).take (e - 1)), String.mk (cs.drop (i + 1)))
        else none
    else
      if (firstIdx (cs.take i) ':').isSome then none
      else if (firstIdx cs '[').isSome then none
      else if (firstIdx cs ']').isSome then none
      else some (String.mk (cs.take i), String.mk (cs.drop (i + 1)))

namespace Socks

/-- Outcome of the pure decision part of handleSOCKS (src/src/main.go lines
102-128): the target address fails to parse (handler returns), or the host
is blacklisted (teapot written, connection closed), or the handler dials
the target address through the SOCKS5 client pointed at 127.0.0.1:1080. -/
inductive SocksOutcome
  | parseError
  | blockedResponse (resp : String)
  | dialViaSocks5 (socksEndpoint targetAddr : String)
  deriving DecidableEq, Repr

/-- Decision logic of handleSOCKS: net.SplitHostPort on targetAddr, the
isBlacklisted check on the host component, then dialer.Dial on the full
targetAddr via the fixed SOCKS5 endpoint.  The function performs no SOCKS
negotiation with the client: its only source for the target is the
targetAddr argument. -/
def handleSOCKS (bl : List String) (targetAddr : String) : SocksOutcome :=
  match splitHostPort targetAddr with
  | none => SocksOutcome.parseError
  | some (host, _) =>
    if isBlacklisted bl host then SocksOutcome.blockedResponse teapotResponse
    else SocksOutcome.dialViaSocks5 "127.0.0.1:1080" targetAddr

/-- The argument the accept loop of main (src/src/main.go line 165) passes
as targetAddr: conn.RemoteAddr().String(), the address of the connecting
client itself. -/
def acceptLoopTargetAddr (clientRemoteAddr : String) : String :=
  clientRemoteAddr

/-- The accept loop composed with the handler: go handleSOCKS(conn,
conn.RemoteAddr().String()). -/
def mainSocksDispatch (bl : List String) (clientRemoteAddr : String) : SocksOutcome :=
  handleSOCKS bl (acceptLoopTargetAddr clientRemoteAddr)

end Socks

/-- isZeros of the Go net package: all bytes zero. -/
def isZeros (bs : List Nat) : Bool :=
  bs.all (fun b => b == 0)

/-- Go IP.To4: a 4-byte address is returned as is; a 16-byte address whose
first 10 bytes are zero and whose bytes 10 and 11 are 0xff is IPv4-mapped
and its last 4 bytes are returned; anything else yields nil. -/
def to4 (ip : List Nat) : Option (List Nat) :=
  if ip.length == 4 then some ip
  else if ip.length == 16 && isZeros (ip.take 10) &&
          ip.getD 10 0 == 255 && ip.getD 11 0 == 255 then
    some (ip.drop 12)
  else none

/-- The Go IPv6loopback value, the 16-byte address with final byte 1. -/
def ipv6Loopback : List Nat :=
  [0, 0, 0, 0, 0, 0, 0, 0, 0, 0, 0, 0, 0, 0, 0, 1]

/-- Go IP.IsLoopback: an address with an IPv4 form is loopback when its first
byte is 127; otherwise loopback means equality with IPv6loopback. -/
def isLoopback (ip : List Nat) : Bool :=
  match to4 ip with
  | some ip4 => ip4.getD 0 0 == 127
  | none => ip == ipv6Loopback

/-- Group a 16-byte address into eight 16-bit groups. -/
def toGroups : List Nat → List Nat
  | a :: b :: rest => (a * 256 + b) :: toGroups rest
  | _ => []

/-- Scan for maximal runs of zero groups: the accumulator carries the run
currently open, emitted when a nonzero group or the end of the list closes
it. -/
def zeroRunsAux : List Nat → Nat → Option (Nat × Nat) → List (Nat × Nat)
  | [], _, none => []
  | [], _, some r => [r]
  | g :: rest, i, none =>
    if g == 0 then zeroRunsAux rest (i + 1) (some (i, 1))
    else zeroRunsAux rest (i + 1) none
  | g :: rest, i, some (s, l) =>
    if g == 0 then zeroRunsAux rest (i + 1) (some (s, l + 1))
    else (s, l) :: zeroRunsAux rest (i + 1) none

/-- All maximal runs of zero groups, as (start index, length) pairs. -/
def zeroRuns (gs : List Nat) : List (Nat × Nat) :=
  zeroRunsAux gs 0 none

/-- The leftmost run of strictly greatest length (the Go loop in IP.String
replaces the carried run only on a strictly longer one). -/
def bestZeroRun (runs : List (Nat × Nat)) : Nat × Nat :=
  runs.foldl (fun best r => if r.2 > best.2 then r else best) (0, 0)

/-- Zero-run selection of IP.String: the best run, discarded when it spans
at most one group (the :: symbol must not shorten a single group); returns
the half-open group index range to compress. -/
def zeroRunSel (gs : List Nat) : Option (Nat × Nat) :=
  let best := bestZeroRun (zeroRuns gs)
  if best.2 ≤ 1 then none else some (best.1, best.1 + best.2)

/-- One group in lowercase hexadecimal with no leading zeros. -/
def hexGroup (n : Nat) : String :=
  String.mk (Nat.toDigits 16 n)

/-- One byte as two lowercase hexadecimal digits (Go hexString helper). -/
def byteHex (b : Nat) : String :=
  String.mk [Nat.digitChar (b / 16 % 16), Nat.digitChar (b % 16)]

/-- Dotted-quad rendering used by IP.String for addresses with an IPv4
form: the four bytes in decimal joined by dots. -/
def ipv4String (a b c d : Nat) : String :=
  toString a ++ "." ++ toString b ++ "." ++ toString c ++ "." ++ toString d

/-- Go IP.String: nil for an empty address; the dotted quad when To4 is
non-nil; a question mark plus hex bytes for any other length than 16;
otherwise the eight groups in hexadecimal joined by colons, with the
selected zero run compressed to a double colon. -/
def ipString (ip : List Nat) : String :=
  if ip.length == 0 then "<nil>"
  else
    match to4 ip with
    | some ip4 => ipv4String (ip4.getD 0 0) (ip4.getD 1 0) (ip4.getD 2 0) (ip4.getD 3 0)
    | none =>
      if ip.length != 16 then "?" ++ String.join (ip.map byteHex)
      else
        let gs := toGroups ip
        match zeroRunSel gs with
        | none => String.intercalate ":" (gs.map hexGroup)
        | some (e0, e1) =>
          String.intercalate ":" ((gs.take e0).map hexGroup) ++ "::" ++
          String.intercalate ":" ((gs.drop e1).map hexGroup)

/-- extractIPv4FromRemoteAddr of src/main.go (lines 63-86).  net.ParseIP is
the one non-repository collaborator left abstract: it is passed in as a
function returning the parsed byte form (in Go, always a 16-byte slice) or
none.  On a split or parse failure the input is returned unchanged; an
address with an IPv4 form is rendered by IP.String; otherwise, when the
address is loopback and its string form starts with the mapped marker
::ffff:, the first seven characters are stripped; else the input is
returned unchanged. -/
def extractIPv4FromRemoteAddr (parseIP : String → Option (List Nat))
    (remoteAddr : String) : String :=
  match splitHostPort remoteAddr with
  | none => remoteAddr
  | some (host, _) =>
    match parseIP host with
    | none => remoteAddr
    | some ip =>
      if (to4 ip).isSome then ipString ip
      else if isLoopback ip && goHasPre (ipString ip) "::ffff:" then
        String.mk ((ipString ip).toList.drop 7)
      else remoteAddr

/-- extractIPv4FromRemoteAddr with the mapped-marker branch removed: the
comparison point for showing that branch unreachable. -/
def extractIPv4NoMappedBranch (parseIP : String → Option (List Nat))
    (remoteAddr : String) : String :=
  match splitHostPort remoteAddr with
  | none => remoteAddr
  | some (host, _) =>
    match parseIP host with
    | none => remoteAddr
    | some ip =>
      if (to4 ip).isSome then ipString ip
      else remoteAddr

theorem dropWhile_head?_not {α : Type} (p : α → Bool) (l : List α) (c : α)
    (h : (l.dropWhile p).head? = some c) : p c = false := by
  induction l with
  | nil => simp at h
  | cons a t ih =>
    rw [List.dropWhile_cons] at h
    by_cases hp : p a = true
    · rw [if_pos hp] at h
      exact ih h
    · rw [if_neg hp] at h
      simp only [List.head?_cons, Option.some.injEq] at h
      subst h
      exact Bool.not_eq_true _ |>.mp hp

theorem dropWhile_getLast?_eq {α : Type} (p : α → Bool) (l : List α) (c : α)
    (h : (l.dropWhile p).getLast? = some c) : l.getLast? = some c := by
  induction l with
  | nil => simp at h
  | cons a t ih =>
    rw [List.dropWhile_cons] at h
    by_cases hp : p a = true
    · rw [if_pos hp] at h
      have ht := ih h
      have hcons : (a :: t).getLast? = t.getLast?.or [a].getLast? :=
        @List.getLast?_append _ [a] t
      rw [hcons, ht]
      rfl
    · rw [if_neg hp] at h
      exact h

theorem noEdgeSpace_trimSpace (s : String) : noEdgeSpace (trimSpace s) = true := by
  show noEdgeSpace
    (String.mk (((s.toList.dropWhile goIsSpace).reverse.dropWhile goIsSpace).reverse)) = true
  unfold noEdgeSpace
  have hmk : ∀ l : List Char, (String.mk l).toList = l := fun _ => rfl
  rw [hmk]
  have h1 : ∀ c, (((s.toList.dropWhile goIsSpace).reverse.dropWhile goIsSpace).reverse).head?
      = some c → goIsSpace c = false := by
    intro c hc
    rw [List.head?_reverse] at hc
    have hmid := dropWhile_getLast?_eq goIsSpace (s.toList.dropWhile goIsSpace).reverse c hc
    rw [List.getLast?_reverse] at hmid
    exact dropWhile_head?_not goIsSpace s.toList c hmid
  have h2 : ∀ c, (((s.toList.dropWhile goIsSpace).reverse.dropWhile goIsSpace).reverse).getLast?
      = some c → goIsSpace c = false := by
    intro c hc
    rw [List.getLast?_reverse] at hc
    exact dropWhile_head?_not goIsSpace (s.toList.dropWhile goIsSpace).reverse c hc
  cases hh : (((s.toList.dropWhile goIsSpace).reverse.dropWhile goIsSpace).reverse).head? with
  | none =>
    cases hg : (((s.toList.dropWhile goIsSpace).reverse.dropWhile goIsSpace).reverse).getLast? with
    | none => simp [hh, hg]
    | some c => simp [hh, hg, h2 c hg]
  | some c =>
    cases hg : (((s.toList.dropWhile goIsSpace).reverse.dropWhile goIsSpace).reverse).getLast? with
    | none => simp [hh, hg, h1 c hh]
    | some d => simp [hh, hg, h1 c hh, h2 d hg]

/-- Claim C1 (amended): the CONNECT-variant predicate isBlocked answers true
exactly when some blacklist entry is an exact match or a prefix of the
candidate host, while the SOCKS-variant predicate isBlacklisted answers
true exactly when some entry is an exact match of the candidate; a
prefix-only match does not trigger isBlacklisted. -/
theorem c1_blocking_predicates (bl : List String) (h : String) :
    (Tunnel.isBlocked bl h = true ↔ ∃ e ∈ bl, e = h ∨ goHasPre h e = true) ∧
    (Socks.isBlacklisted bl h = true ↔ h ∈ bl) := by
  constructor
  · unfold Tunnel.isBlocked
    rw [List.any_eq_true]
    constructor
    · rintro ⟨e, he, hp⟩
      exact ⟨e, he, Or.inr hp⟩
    · rintro ⟨e, he, hcase⟩
      refine ⟨e, he, ?_⟩
      rcases hcase with rfl | hp
      · unfold goHasPre
        rw [List.isPrefixOf_iff_prefix]
      · exact hp
  · unfold Socks.isBlacklisted
    exact List.elem_iff

/-- Claim C1 counterexample: with the single entry foo, the entry is a strict
prefix of the host foobar, so the claimed iff requires isBlacklisted to
answer true there; the SOCKS variant answers false. -/
theorem c1_counterexample :
    ¬ (Socks.isBlacklisted ["foo"] "foobar" = true ↔
        ∃ e ∈ ["foo"], e = "foobar" ∨ goHasPre "foobar" e = true) := by
  decide

/-- Claim C2, the code evaluated at the failing input: with one 5-byte chunk
pending client-to-target (the backgrounded, counted copy) and one 3-byte
chunk pending target-to-client (the foreground copy), the schedule that
runs the foreground copy to completion first brings handleSOCKS to its log
statement, which the code reaches without joining the background copy: the
counted direction still has its chunk pending and the logged pair is
(0, 0), while one further background step moves the counters to the true
totals (5, 5).  The totals are read as a partial snapshot before both
directions complete, contradicting the claim. -/
theorem c2_log_before_both_directions_done :
    Socks.logReached (Socks.relayRun [false] (Socks.relayState.mk [5] [3] 0 0)) = true ∧
    (Socks.relayRun [false] (Socks.relayState.mk [5] [3] 0 0)).pendingClientToTarget = [5] ∧
    Socks.loggedBytes (Socks.relayRun [false] (Socks.relayState.mk [5] [3] 0 0)) = (0, 0) ∧
    Socks.loggedBytes
      (Socks.stepBackground (Socks.relayRun [false] (Socks.relayState.mk [5] [3] 0 0)))
      = (5, 5) := by
  decide

theorem runCalls_cons (st : countingConn) (c : ConnCall) (calls : List ConnCall) :
    runCalls st (c :: calls) = runCalls (applyCall st c) calls := rfl

theorem runCalls_le_of_append (st : countingConn) (calls extra : List ConnCall) :
    (runCalls st calls).bytesWritten ≤ (runCalls st (calls ++ extra)).bytesWritten ∧
    (runCalls st calls).bytesRead ≤ (runCalls st (calls ++ extra)).bytesRead := by
  have hsplit : runCalls st (calls ++ extra) = runCalls (runCalls st calls) extra := by
    unfold runCalls
    exact List.foldl_append _ _ _ _
  rw [hsplit]
  clear hsplit
  generalize runCalls st calls = mid
  induction extra generalizing mid with
  | nil => exact ⟨le_refl _, le_refl _⟩
  | cons c rest ih =>
    rw [runCalls_cons]
    have hstep : mid.bytesWritten ≤ (applyCall mid c).bytesWritten ∧
        mid.bytesRead ≤ (applyCall mid c).bytesRead := by
      cases c with
      | write n err =>
        simp only [applyCall]
        constructor <;> omega
      | read n err =>
        simp only [applyCall]
        constructor <;> omega
    have hrest := ih (applyCall mid c)
    exact ⟨le_trans hstep.1 hrest.1, le_trans hstep.2 hrest.2⟩

theorem wrap64_eq_self (x : Int) (hlo : -(2 ^ 63) ≤ x) (hhi : x < 2 ^ 63) :
    wrap64 x = x := by
  unfold wrap64
  have h1 : (0 : Int) ≤ x + 2 ^ 63 := by omega
  have h2 : x + 2 ^ 63 < 2 ^ 64 := by omega
  rw [Int.emod_eq_of_lt h1 h2]
  omega

theorem writeTotal_nonneg (calls : List ConnCall) : 0 ≤ writeTotal calls := by
  induction calls with
  | nil => simp [writeTotal]
  | cons c rest ih =>
    cases c with
    | write n err =>
      simp only [writeTotal]
      omega
    | read n err =>
      simp only [writeTotal]
      omega

theorem readTotal_nonneg (calls : List ConnCall) : 0 ≤ readTotal calls := by
  induction calls with
  | nil => simp [readTotal]
  | cons c rest ih =>
    cases c with
    | write n err =>
      simp only [readTotal]
      omega
    | read n err =>
      simp only [readTotal]
      omega

theorem writeTotal_append (l1 l2 : List ConnCall) :
    writeTotal (l1 ++ l2) = writeTotal l1 + writeTotal l2 := by
  induction l1 with
  | nil => simp [writeTotal]
  | cons c rest ih =>
    cases c <;> (simp only [List.cons_append, writeTotal, List.append_eq, ih]; try ring)

theorem readTotal_append (l1 l2 : List ConnCall) :
    readTotal (l1 ++ l2) = readTotal l1 + readTotal l2 := by
  induction l1 with
  | nil => simp [readTotal]
  | cons c rest ih =>
    cases c <;> (simp only [List.cons_append, readTotal, List.append_eq, ih]; try ring)

theorem runCallsW_cons (st : countingConn) (c : ConnCall) (calls : List ConnCall) :
    runCallsW st (c :: calls) = runCallsW (applyCallW st c) calls := rfl

theorem runCallsW_eq_runCalls (st : countingConn) (calls : List ConnCall)
    (hw0 : 0 ≤ st.bytesWritten) (hr0 : 0 ≤ st.bytesRead)
    (hwHi : st.bytesWritten + writeTotal calls < 2 ^ 63)
    (hrHi : st.bytesRead + readTotal calls < 2 ^ 63) :
    runCallsW st calls = runCalls st calls := by
  revert hw0 hr0 hwHi hrHi
  induction calls generalizing st with
  | nil =>
    intro _ _ _ _
    rfl
  | cons c rest ih =>
    intro hw0 hr0 hwHi hrHi
    have hwt := writeTotal_nonneg rest
    have hrt := readTotal_nonneg rest
    cases c with
    | write n err =>
      simp only [writeTotal, readTotal] at hwHi hrHi
      have hstep : applyCallW st (ConnCall.write n err) = applyCall st (ConnCall.write n err) := by
        simp only [applyCallW, applyCall]
        rw [wrap64_eq_self (st.bytesWritten + n) (by omega) (by omega)]
      rw [runCallsW_cons, runCalls_cons, hstep]
      refine ih (applyCall st (ConnCall.write n err)) ?_ ?_ ?_ ?_ <;>
        simp only [applyCall] <;> omega
    | read n err =>
      simp only [writeTotal, readTotal] at hwHi hrHi
      have hstep : applyCallW st (ConnCall.read n err) = applyCall st (ConnCall.read n err) := by
        simp only [applyCallW, applyCall]
        rw [wrap64_eq_self (st.bytesRead + n) (by omega) (by omega)]
      rw [runCallsW_cons, runCalls_cons, hstep]
      refine ih (applyCall st (ConnCall.read n err)) ?_ ?_ ?_ ?_ <;>
        simp only [applyCall] <;> omega

/-- Claim C7 (amended): with the int64 wraparound of atomic.AddInt64
modelled explicitly, the counters never decrease across any extension of a
call sequence provided no overflow occurs, i.e. the starting values are
nonnegative and each running total stays below 2 to the 63; in that
overflow-free regime the wrapping counters moreover coincide with the
ideal unbounded counters, so no underflow is possible there.  (On overflow
a counter can wrap negative and decrease: see the counterexample.) -/
theorem c7_wrapping_counters_monotone (st : countingConn) (calls extra : List ConnCall)
    (hw0 : 0 ≤ st.bytesWritten) (hr0 : 0 ≤ st.bytesRead)
    (hwHi : st.bytesWritten + writeTotal (calls ++ extra) < 2 ^ 63)
    (hrHi : st.bytesRead + readTotal (calls ++ extra) < 2 ^ 63) :
    runCallsW st (calls ++ extra) = runCalls st (calls ++ extra) ∧
    (runCallsW st calls).bytesWritten ≤ (runCallsW st (calls ++ extra)).bytesWritten ∧
    (runCallsW st calls).bytesRead ≤ (runCallsW st (calls ++ extra)).bytesRead := by
  have hwa := writeTotal_append calls extra
  have hra := readTotal_append calls extra
  have hwe := writeTotal_nonneg extra
  have hre := readTotal_nonneg extra
  have hfull : runCallsW st (calls ++ extra) = runCalls st (calls ++ extra) :=
    runCallsW_eq_runCalls st (calls ++ extra) hw0 hr0 hwHi hrHi
  have hpre : runCallsW st calls = runCalls st calls :=
    runCallsW_eq_runCalls st calls hw0 hr0 (by omega) (by omega)
  refine ⟨hfull, ?_, ?_⟩
  · rw [hfull, hpre]
    exact (runCalls_le_of_append st calls extra).1
  · rw [hfull, hpre]
    exact (runCalls_le_of_append st calls extra).2

/-- Claim C7 witness: a short overflow-free sequence satisfies the range
hypotheses; the wrapping counters match the unbounded model and do not
decrease when the sequence is extended. -/
theorem c7_witness :
    runCallsW (countingConn.mk 0 0)
        ([ConnCall.write 3 none] ++ [ConnCall.read 2 none, ConnCall.write 1 (some "e")])
      = runCalls (countingConn.mk 0 0)
        ([ConnCall.write 3 none] ++ [ConnCall.read 2 none, ConnCall.write 1 (some "e")]) ∧
    (runCallsW (countingConn.mk 0 0) [ConnCall.write 3 none]).bytesWritten
      ≤ (runCallsW (countingConn.mk 0 0)
          ([ConnCall.write 3 none] ++
            [ConnCall.read 2 none, ConnCall.write 1 (some "e")])).bytesWritten ∧
    (runCallsW (countingConn.mk 0 0) [ConnCall.write 3 none]).bytesRead
      ≤ (runCallsW (countingConn.mk 0 0)
          ([ConnCall.write 3 none] ++
            [ConnCall.read 2 none, ConnCall.write 1 (some "e")])).bytesRead :=
  c7_wrapping_counters_monotone (countingConn.mk 0 0) [ConnCall.write 3 none]
    [ConnCall.read 2 none, ConnCall.write 1 (some "e")]
    (by decide) (by decide) (by decide) (by decide)

/-- Claim C7 counterexample: two Write calls each reporting 2 to the 63
minus 1 bytes overflow the wrapping int64 counter: after the first call it
holds 2 to the 63 minus 1, after the second it holds -2, so the counter of
the program decreases across a call, refuting the original claim. -/
theorem c7_counterexample :
    (applyCallW (applyCallW (countingConn.mk 0 0) (ConnCall.write (2 ^ 63 - 1) none))
        (ConnCall.write (2 ^ 63 - 1) none)).bytesWritten
      < (applyCallW (countingConn.mk 0 0) (ConnCall.write (2 ^ 63 - 1) none)).bytesWritten := by
  decide

/-- Claim C4 (amended): both loaders store exactly the trimmed forms of the input
lines, so no stored entry carries leading or trailing whitespace; the
SOCKS-variant loader additionally drops every line that trims to nothing,
while the CONNECT-variant loader keeps the empty entry such a line trims
to. -/
theorem c4_loaders_trim_lines (lines : List String) (e : String) :
    (e ∈ Socks.loadBlacklist lines ↔ (∃ l ∈ lines, trimSpace l = e) ∧ e ≠ "") ∧
    (e ∈ Tunnel.loadBlacklist lines ↔ ∃ l ∈ lines, trimSpace l = e) ∧
    (e ∈ Tunnel.loadBlacklist lines → noEdgeSpace e = true) ∧
    (e ∈ Socks.loadBlacklist lines → noEdgeSpace e = true) := by
  have htun : e ∈ Tunnel.loadBlacklist lines ↔ ∃ l ∈ lines, trimSpace l = e := by
    unfold Tunnel.loadBlacklist
    exact List.mem_map
  have hedge : (∃ l ∈ lines, trimSpace l = e) → noEdgeSpace e = true := by
    rintro ⟨l, _, rfl⟩
    exact noEdgeSpace_trimSpace l
  have hsocks : e ∈ Socks.loadBlacklist lines ↔ (∃ l ∈ lines, trimSpace l = e) ∧ e ≠ "" := by
    unfold Socks.loadBlacklist
    rw [List.mem_filter, List.mem_map]
    constructor
    · rintro ⟨hex, hne⟩
      exact ⟨hex, by simpa using hne⟩
    · rintro ⟨hex, hne⟩
      exact ⟨hex, by simpa using hne⟩
  exact ⟨hsocks, htun, fun hm => hedge (htun.mp hm), fun hm => hedge ((hsocks.mp hm).1)⟩

/-- Claim C4 witness: the line with surrounding blanks is stored trimmed in both
loaders, and the stored entry has clean edges. -/
theorem c4_witness :
    noEdgeSpace "a" = true ∧ noEdgeSpace "a" = true :=
  ⟨(c4_loaders_trim_lines ["  a "] "a").2.2.1 (by decide),
   (c4_loaders_trim_lines ["  a "] "a").2.2.2 (by decide)⟩

/-- Claim C4 counterexample: a blank line is not ignored by the CONNECT-variant
loader: it contributes the empty string as an entry of the policy set. -/
theorem c4_counterexample : "" ∈ Tunnel.loadBlacklist ["  "] := by
  decide

/-- Claim C5: for every blocked target host, the CONNECT handler writes exactly
the literal teapot status line and returns, and the outcome is never a
dial. -/
theorem c5_blocked_teapot_no_dial (bl : List String) (host : String)
    (hb : Tunnel.isBlocked bl host = true) :
    Tunnel.connectDecision bl "CONNECT" host
      = Tunnel.ConnectOutcome.blockedResponse teapotResponse ∧
    ∀ addr, Tunnel.connectDecision bl "CONNECT" host
      ≠ Tunnel.ConnectOutcome.dialTarget addr := by
  have h1 : Tunnel.connectDecision bl "CONNECT" host
      = Tunnel.ConnectOutcome.blockedResponse teapotResponse := by
    unfold Tunnel.connectDecision
    rw [if_neg (by decide), if_pos hb]
  refine ⟨h1, fun addr hcontra => ?_⟩
  rw [h1] at hcontra
  exact Tunnel.ConnectOutcome.noConfusion hcontra

/-- Claim C5 witness: the scenario of the spec, blocked.example in the policy and
target blocked.example:443. -/
theorem c5_witness :
    Tunnel.connectDecision ["blocked.example"] "CONNECT" "blocked.example:443"
      = Tunnel.ConnectOutcome.blockedResponse teapotResponse :=
  (c5_blocked_teapot_no_dial ["blocked.example"] "blocked.example:443" (by decide)).1

/-- Claim C6: for a non-blocked target, a host without a colon is dialed with
the default port 443 appended, and a host already carrying a colon is
dialed unchanged. -/
theorem c6_default_port_443 (bl : List String) (host : String)
    (hb : Tunnel.isBlocked bl host = false) :
    (host.toList.contains ':' = false →
      Tunnel.connectDecision bl "CONNECT" host
        = Tunnel.ConnectOutcome.dialTarget (host ++ ":443")) ∧
    (host.toList.contains ':' = true →
      Tunnel.connectDecision bl "CONNECT" host
        = Tunnel.ConnectOutcome.dialTarget host) := by
  constructor
  · intro hc
    unfold Tunnel.connectDecision
    rw [if_neg (by decide), if_neg (by simp [hb]), if_pos (by rw [hc]; rfl)]
  · intro hc
    unfold Tunnel.connectDecision
    rw [if_neg (by decide), if_neg (by simp [hb]), if_neg (by rw [hc]; decide)]

/-- Claim C6 witness: a portless host gains :443 and a host with a port is dialed
as supplied. -/
theorem c6_witness :
    Tunnel.connectDecision [] "CONNECT" "example.com"
      = Tunnel.ConnectOutcome.dialTarget "example.com:443" ∧
    Tunnel.connectDecision [] "CONNECT" "example.com:8443"
      = Tunnel.ConnectOutcome.dialTarget "example.com:8443" :=
  ⟨(c6_default_port_443 [] "example.com" (by decide)).1 (by decide),
   (c6_default_port_443 [] "example.com:8443" (by decide)).2 (by decide)⟩

/-- Claim C8: the SOCKS accept loop hands handleSOCKS the remote address of the
connecting client itself as targetAddr, so the blacklist check is made on
the host component of the client address and any dial through the fixed
SOCKS5 endpoint goes to the client address itself; the handler model has no
other address source, hence no destination chosen by the client through any
SOCKS addressing step can enter the decision. -/
theorem c8_socks_uses_client_address (bl : List String) (clientAddr : String) :
    Socks.acceptLoopTargetAddr clientAddr = clientAddr ∧
    Socks.mainSocksDispatch bl clientAddr = Socks.handleSOCKS bl clientAddr ∧
    (∀ host port, splitHostPort clientAddr = some (host, port) →
      Socks.isBlacklisted bl host = false →
      Socks.mainSocksDispatch bl clientAddr
        = Socks.SocksOutcome.dialViaSocks5 "127.0.0.1:1080" clientAddr) ∧
    (∀ ep t, Socks.mainSocksDispatch bl clientAddr = Socks.SocksOutcome.dialViaSocks5 ep t →
      ep = "127.0.0.1:1080" ∧ t = clientAddr) := by
  refine ⟨rfl, rfl, ?_, ?_⟩
  · intro host port hsp hnb
    unfold Socks.mainSocksDispatch Socks.acceptLoopTargetAddr Socks.handleSOCKS
    rw [hsp]
    simp only [hnb]
    rfl
  · intro ep t hdial
    unfold Socks.mainSocksDispatch Socks.acceptLoopTargetAddr Socks.handleSOCKS at hdial
    cases hsp : splitHostPort clientAddr with
    | none =>
      rw [hsp] at hdial
      exact Socks.SocksOutcome.noConfusion hdial
    | some hp =>
      obtain ⟨h, p⟩ := hp
      rw [hsp] at hdial
      have hdial2 : (if Socks.isBlacklisted bl h = true
          then Socks.SocksOutcome.blockedResponse teapotResponse
          else Socks.SocksOutcome.dialViaSocks5 "127.0.0.1:1080" clientAddr)
          = Socks.SocksOutcome.dialViaSocks5 ep t := hdial
      by_cases hbl : Socks.isBlacklisted bl h = true
      · rw [if_pos hbl] at hdial2
        exact Socks.SocksOutcome.noConfusion hdial2
      · rw [if_neg hbl] at hdial2
        cases hdial2
        exact ⟨rfl, rfl⟩

/-- Claim C8 witness: a client at 9.9.9.9:1234 with an empty blacklist is checked
and dialed at its own address. -/
theorem c8_witness :
    Socks.mainSocksDispatch [] "9.9.9.9:1234"
      = Socks.SocksOutcome.dialViaSocks5 "127.0.0.1:1080" "9.9.9.9:1234" :=
  (c8_socks_uses_client_address [] "9.9.9.9:1234").2.2.1 "9.9.9.9" "1234"
    (by decide) (by decide)

/-- Claim C9: a blank or whitespace-only line makes the CONNECT-variant loader
store the empty entry, and the empty string is a prefix of every host, so
isBlocked then answers true for every host whatsoever. -/
theorem c9_blank_line_blocks_all (lines : List String) (host : String)
    (hblank : ∃ l ∈ lines, trimSpace l = "") :
    Tunnel.isBlocked (Tunnel.loadBlacklist lines) host = true := by
  obtain ⟨l, hl, htr⟩ := hblank
  unfold Tunnel.isBlocked Tunnel.loadBlacklist
  rw [List.any_eq_true]
  refine ⟨"", List.mem_map.mpr ⟨l, hl, htr⟩, ?_⟩
  unfold goHasPre
  rw [List.isPrefixOf_iff_prefix]
  exact List.nil_prefix

/-- Claim C9 witness: one whitespace-only line in the policy file blocks an
unrelated host. -/
theorem c9_witness :
    Tunnel.isBlocked (Tunnel.loadBlacklist [" ", "safe.example"])
      "totally.unrelated.example:443" = true :=
  c9_blank_line_blocks_all [" ", "safe.example"] "totally.unrelated.example:443"
    ⟨" ", by decide, by decide⟩

theorem to4_eq_some_of (ip : List Nat) (hlen : ip.length = 16) (ip4 : List Nat)
    (h : to4 ip = some ip4) : ip4 = ip.drop 12 := by
  unfold to4 at h
  rw [if_neg (by rw [hlen]; decide)] at h
  by_cases hc : (ip.length == 16 && isZeros (ip.take 10) &&
      ip.getD 10 0 == 255 && ip.getD 11 0 == 255) = true
  · rw [if_pos hc] at h
    exact (Option.some.injEq _ _ ▸ h).symm
  · rw [if_neg hc] at h
    exact Option.noConfusion h

theorem ipString_of_to4 (ip : List Nat) (hlen : ip.length = 16) (a b c d : Nat)
    (h : to4 ip = some [a, b, c, d]) : ipString ip = ipv4String a b c d := by
  unfold ipString
  rw [if_neg (by rw [hlen]; decide), h]
  rfl

theorem extract_eq_of_split_none (parseIP : String → Option (List Nat))
    (remoteAddr : String) (hsp : splitHostPort remoteAddr = none) :
    extractIPv4FromRemoteAddr parseIP remoteAddr = remoteAddr ∧
    extractIPv4NoMappedBranch parseIP remoteAddr = remoteAddr := by
  constructor
  · unfold extractIPv4FromRemoteAddr
    rw [hsp]
  · unfold extractIPv4NoMappedBranch
    rw [hsp]

theorem extract_eq_of_parse_none (parseIP : String → Option (List Nat))
    (remoteAddr host port : String)
    (hsp : splitHostPort remoteAddr = some (host, port)) (hpi : parseIP host = none) :
    extractIPv4FromRemoteAddr parseIP remoteAddr = remoteAddr ∧
    extractIPv4NoMappedBranch parseIP remoteAddr = remoteAddr := by
  constructor
  · unfold extractIPv4FromRemoteAddr
    rw [hsp]
    show (match parseIP host with
          | none => remoteAddr
          | some ip =>
            if (to4 ip).isSome then ipString ip
            else if isLoopback ip && goHasPre (ipString ip) "::ffff:" then
              String.mk ((ipString ip).toList.drop 7)
            else remoteAddr) = remoteAddr
    rw [hpi]
  · unfold extractIPv4NoMappedBranch
    rw [hsp]
    show (match parseIP host with
          | none => remoteAddr
          | some ip =>
            if (to4 ip).isSome then ipString ip
            else remoteAddr) = remoteAddr
    rw [hpi]

theorem extract_eq_of_parse_some (parseIP : String → Option (List Nat))
    (remoteAddr host port : String) (ip : List Nat)
    (hsp : splitHostPort remoteAddr = some (host, port)) (hpi : parseIP host = some ip) :
    extractIPv4FromRemoteAddr parseIP remoteAddr
      = (if (to4 ip).isSome then ipString ip
         else if isLoopback ip && goHasPre (ipString ip) "::ffff:" then
           String.mk ((ipString ip).toList.drop 7)
         else remoteAddr) ∧
    extractIPv4NoMappedBranch parseIP remoteAddr
      = (if (to4 ip).isSome then ipString ip else remoteAddr) := by
  constructor
  · unfold extractIPv4FromRemoteAddr
    rw [hsp]
    show (match parseIP host with
          | none => remoteAddr
          | some ip =>
            if (to4 ip).isSome then ipString ip
            else if isLoopback ip && goHasPre (ipString ip) "::ffff:" then
              String.mk ((ipString ip).toList.drop 7)
            else remoteAddr) = _
    rw [hpi]
  · unfold extractIPv4NoMappedBranch
    rw [hsp]
    show (match parseIP host with
          | none => remoteAddr
          | some ip =>
            if (to4 ip).isSome then ipString ip
            else remoteAddr) = _
    rw [hpi]

theorem isLoopback_of_to4_none (ip : List Nat) (h4 : to4 ip = none)
    (hl : isLoopback ip = true) : ip = ipv6Loopback := by
  unfold isLoopback at hl
  rw [h4] at hl
  exact eq_of_beq hl

theorem mappedBranch_false (ip : List Nat) (h4 : to4 ip = none) :
    (isLoopback ip && goHasPre (ipString ip) "::ffff:") = false := by
  by_cases hl : isLoopback ip = true
  · have hip := isLoopback_of_to4_none ip h4 hl
    subst hip
    decide
  · rw [Bool.not_eq_true] at hl
    rw [hl]
    rfl

/-- Claim C10: for every parse oracle producing well-formed 16-byte addresses (as
net.ParseIP does) and every input string, extractIPv4FromRemoteAddr returns
either its input unchanged or the dotted-quad rendering of four bytes, and
it agrees everywhere with the variant whose mapped-marker branch is
removed: that branch is dead code.  An IPv4-mapped address already passes
the To4 test and returns from the To4 branch; for the remaining addresses
the conjunction of IsLoopback (forcing the address to be the IPv6 loopback,
whose rendering is the double colon followed by 1) with the mapped-marker
string test can never hold. -/
theorem c10_extract_returns_input_or_dotted_quad
    (parseIP : String → Option (List Nat))
    (wf : ∀ s ip, parseIP s = some ip → ip.length = 16 ∧ ∀ b ∈ ip, b < 256)
    (remoteAddr : String) :
    (extractIPv4FromRemoteAddr parseIP remoteAddr = remoteAddr ∨
      ∃ a b c d, a < 256 ∧ b < 256 ∧ c < 256 ∧ d < 256 ∧
        extractIPv4FromRemoteAddr parseIP remoteAddr = ipv4String a b c d) ∧
    extractIPv4FromRemoteAddr parseIP remoteAddr
      = extractIPv4NoMappedBranch parseIP remoteAddr := by
  cases hsp : splitHostPort remoteAddr with
  | none =>
    obtain ⟨h1, h2⟩ := extract_eq_of_split_none parseIP remoteAddr hsp
    exact ⟨Or.inl h1, h1.trans h2.symm⟩
  | some hp =>
    obtain ⟨host, port⟩ := hp
    cases hpi : parseIP host with
    | none =>
      obtain ⟨h1, h2⟩ := extract_eq_of_parse_none parseIP remoteAddr host port hsp hpi
      exact ⟨Or.inl h1, h1.trans h2.symm⟩
    | some ip =>
      obtain ⟨h1, h2⟩ := extract_eq_of_parse_some parseIP remoteAddr host port ip hsp hpi
      obtain ⟨hlen, hbytes⟩ := wf host ip hpi
      cases h4 : to4 ip with
      | some ip4 =>
        have heq : ip4 = ip.drop 12 := to4_eq_some_of ip hlen ip4 h4
        have hlen4 : ip4.length = 4 := by
          rw [heq, List.length_drop, hlen]
        rw [h4] at h1 h2
        rcases ip4 with _ | ⟨a, _ | ⟨b, _ | ⟨c, _ | ⟨d, _ | ⟨e, tl⟩⟩⟩⟩⟩ <;>
          try (exfalso; simp only [List.length_cons, List.length_nil] at hlen4; omega)
        have hips : ipString ip = ipv4String a b c d := ipString_of_to4 ip hlen a b c d h4
        have hmem : ∀ x ∈ [a, b, c, d], x ∈ ip := by
          intro x hx
          exact List.drop_subset 12 ip (heq ▸ hx)
        refine ⟨Or.inr ⟨a, b, c, d,
          hbytes a (hmem a (by simp)), hbytes b (hmem b (by simp)),
          hbytes c (hmem c (by simp)), hbytes d (hmem d (by simp)),
          h1.trans hips⟩, h1.trans h2.symm⟩
      | none =>
        have hcond := mappedBranch_false ip h4
        rw [h4] at h1 h2
        have hinner : (if (isLoopback ip && goHasPre (ipString ip) "::ffff:") = true
            then String.mk ((ipString ip).toList.drop 7) else remoteAddr) = remoteAddr :=
          if_neg (by rw [hcond]; decide)
        refine ⟨Or.inl (h1.trans hinner), ?_⟩
        rw [h1, h2, hinner]

/-- Claim C10 witness: a parse oracle returning nothing satisfies the
well-formedness hypothesis, and on an input with no port separator the
function returns its input unchanged and agrees with the branchless
variant. -/
theorem c10_witness :
    (extractIPv4FromRemoteAddr (fun _ => none) "abc" = "abc" ∨
      ∃ a b c d, a < 256 ∧ b < 256 ∧ c < 256 ∧ d < 256 ∧
        extractIPv4FromRemoteAddr (fun _ => none) "abc" = ipv4String a b c d) ∧
    extractIPv4FromRemoteAddr (fun _ => none) "abc"
      = extractIPv4NoMappedBranch (fun _ => none) "abc" :=
  c10_extract_returns_input_or_dotted_quad (fun _ => none)
    (fun _ _ h => Option.noConfusion h) "abc"

end GoProxy
